import Mathlib

/-!
Shallow embedding of `src/main.py` (vttkana): vocabulary extraction from
WebVTT subtitle captions, two serialization encodings (JSON and CSV), the
query engine, and the conversion driver.

Modelling conventions:
* Timestamps (seconds) are exact rationals; the code only moves them
  around and compares them, so exact arithmetic is faithful.
* A Python `set` of timestamps is modelled as a duplicate-free list in
  some enumeration order; enumeration order of a Python set is
  unspecified and is unobservable in the properties proved here.
* A Python `dict` is modelled as an insertion-ordered association list
  (CPython dicts preserve insertion order).
* Raised exceptions are the `.error` branch of `Except`.
-/

set_option linter.unusedVariables false

namespace Vttkana

/-- One subtitle cue, as the external webvtt reader provides it. -/
structure Caption where
  raw_text : String
  start_in_seconds : ℚ
  end_in_seconds : ℚ
deriving DecidableEq, Repr

/-- A vocabulary entry's `frequency` field.  It is an integer everywhere
except after a CSV load, where the code keeps the cell text as a string. -/
inductive FreqVal where
  | int (n : ℤ)
  | str (s : String)
deriving DecidableEq, Repr

/-- The run-time shapes of an entry's `occurences` value: a Python set of
timestamps (single-file aggregation), a list of timestamps (after
`jsonify_vocabulary` or a load), a dict from source base name to a set
(merged aggregation), and a dict from base name to a list (after
`jsonify_vocabulary` or a load). -/
inductive OccVal where
  | set (ts : List ℚ)
  | list (ts : List ℚ)
  | dictSet (m : List (String × List ℚ))
  | dictList (m : List (String × List ℚ))
deriving DecidableEq, Repr

structure Entry where
  frequency : FreqVal
  occurences : OccVal
deriving DecidableEq, Repr

/-- A vocabulary: a Python dict keyed by dictionary form. -/
abbrev Vocabulary := List (String × Entry)

/-- Python `d[k]` lookup on an insertion-ordered dict. -/
def dictGet {α : Type} (k : String) : List (String × α) → Option α
  | [] => none
  | (k2, v) :: rest => if k2 = k then some v else dictGet k rest

/-- Python `d[k] = v` assignment on an insertion-ordered dict: update in place
when the key is present, append otherwise. -/
def dictAssign {α : Type} (k : String) (v : α) : List (String × α) → List (String × α)
  | [] => [(k, v)]
  | (k2, v2) :: rest => if k2 = k then (k, v) :: rest else (k2, v2) :: dictAssign k v rest

/-- The keys of an association list, in order. -/
def keysOf {α : Type} (l : List (String × α)) : List String := l.map Prod.fst

/-- The list `POS_FILTER` (src/main.py lines 30-44): part-of-speech path prefixes
excluded from the vocabulary. -/
def POS_FILTER : List String :=
  ["助詞",
   "副詞,助詞類接続",
   "助動詞",
   "名詞,非自立,助動詞語幹",
   "記号",
   "接頭詞",
   "名詞,接尾",
   "動詞,接尾",
   "形容詞,接尾",
   "接尾",
   "名詞,数",
   "数",
   "フィラー"]

/-- A janome token as `analyze_subtitles` reads it; `base_form = none`
models a Python node object lacking the `base_form` attribute. -/
structure Node where
  surface : String
  base_form : Option String
  part_of_speech : String
deriving DecidableEq, Repr

/-- The compound-noun `extra` tuple attached by the upstream token
filter; the code only reads index 3 (the merged base form), so only that
component is modelled. -/
structure Extra where
  dict_form : String
deriving DecidableEq, Repr

structure Morpheme where
  node : Node
  extra : Option Extra
deriving DecidableEq, Repr

/-- The function `filter_node` (src/main.py lines 94-99): the loop over `POS_FILTER`
returning True on the first prefix match, else False.  Python's
`str.startswith` is the character-level prefix test. -/
def filter_node (node : Node) : Bool :=
  POS_FILTER.any (fun pos => pos.toList.isPrefixOf node.part_of_speech.toList)

/-- The dictionary form one morpheme contributes in `analyze_subtitles`
(lines 108-116): the `extra[3]` override when `extra` is present,
otherwise the node's `base_form` when that attribute exists and
`filter_node` does not exclude the node, otherwise nothing. -/
def retained_form (m : Morpheme) : Option String :=
  match m.extra with
  | some e => some e.dict_form
  | none =>
    match m.node.base_form with
    | some b => if filter_node m.node then none else some b
    | none => none

/-- The log line printed at line 115 for a morpheme with no citable form. -/
def no_base_form_message (m : Morpheme) : String :=
  "No base form for \"" ++ m.node.surface ++ "\""

/-- Python `set.add`: a no-op when the element is present. -/
def setAdd (t : ℚ) (ts : List ℚ) : List ℚ := if t ∈ ts then ts else ts ++ [t]

/-- Python `frequency += 1`.  During aggregation the frequency is always an
integer (entries are created with 0); on a string Python would raise
TypeError, which cannot happen here. -/
def freqSucc : FreqVal → FreqVal
  | .int n => .int (n + 1)
  | .str s => .str s

/-- Python `occurences.add(t)`; aggregation entries always hold a set. -/
def occAdd (t : ℚ) : OccVal → OccVal
  | .set ts => .set (setAdd t ts)
  | o => o

/-- Lines 117-120: create the entry when unseen, bump the frequency, add
the caption start time to the occurrence set. -/
def record_occurrence (vocabulary : Vocabulary) (dict_form : String) (t : ℚ) : Vocabulary :=
  let v := if (dictGet dict_form vocabulary).isSome then vocabulary
           else dictAssign dict_form ⟨.int 0, .set []⟩ vocabulary
  match dictGet dict_form v with
  | some e => dictAssign dict_form ⟨freqSucc e.frequency, occAdd t e.occurences⟩ v
  | none => v

/-- The inner morpheme loop of `analyze_subtitles` for one caption with
start time `t`; the second component collects the log lines printed for
morphemes without a citable form. -/
def process_morphemes (t : ℚ) : List Morpheme → Vocabulary → Vocabulary × List String
  | [], vocabulary => (vocabulary, [])
  | m :: rest, vocabulary =>
    match retained_form m with
    | some dict_form => process_morphemes t rest (record_occurrence vocabulary dict_form t)
    | none =>
      let r := process_morphemes t rest vocabulary
      if m.extra.isNone && m.node.base_form.isNone then (r.1, no_base_form_message m :: r.2)
      else r

/-- The function `analyze_subtitles` (src/main.py lines 102-122); `analyzer` stands
for the janome pipeline applied to a caption's raw text.  Returns the
vocabulary and the accumulated log lines. -/
def analyze_subtitles (subtitles : List Caption) (analyzer : String → List Morpheme) :
    Vocabulary × List String :=
  subtitles.foldl
    (fun acc caption =>
      let r := process_morphemes caption.start_in_seconds (analyzer caption.raw_text) acc.1
      (r.1, acc.2 ++ r.2))
    ([], [])

/-! ### Vocabulary store: JSON encoding -/

/-- A JSON value, as far as the vocabulary files need it.  Python's json
module distinguishes ints from floats, hence two numeric constructors;
floats are modelled as exact rationals. -/
inductive JVal where
  | int (n : ℤ)
  | float (q : ℚ)
  | str (s : String)
  | arr (xs : List JVal)
  | obj (kvs : List (String × JVal))
deriving Repr

/-- The effect of `jsonify_vocabulary` on one `occurences` value (lines 50-56): a set
becomes a list, the values of a grouped dict become lists.  A flat list
value would make the Python code crash on `.items()`; it never reaches
this function in a run because each vocabulary is serialized exactly
once, straight from aggregation. -/
def jsonifyOcc : OccVal → OccVal
  | .set ts => .list ts
  | .dictSet m => .dictList m
  | .dictList m => .dictList m
  | .list ts => .list ts

/-- The function `jsonify_vocabulary` (src/main.py lines 50-56). -/
def jsonify_vocabulary (vocabulary : Vocabulary) : Vocabulary :=
  vocabulary.map (fun kv => (kv.1, ⟨kv.2.frequency, jsonifyOcc kv.2.occurences⟩))

def freqToJson : FreqVal → JVal
  | .int n => .int n
  | .str s => .str s

/-- The JSON value of an `occurences` field.  After `jsonify_vocabulary`
only the list shapes occur; the set shapes are mapped like their
jsonified forms, which keeps the function total without changing any
composite below (Python json.dump would raise TypeError on a raw set). -/
def occToJson : OccVal → JVal
  | .set ts => .arr (ts.map .float)
  | .list ts => .arr (ts.map .float)
  | .dictSet m => .obj (m.map (fun p => (p.1, .arr (p.2.map .float))))
  | .dictList m => .obj (m.map (fun p => (p.1, .arr (p.2.map .float))))

def entryToJson (e : Entry) : JVal :=
  .obj [("frequency", freqToJson e.frequency), ("occurences", occToJson e.occurences)]

/-- The function `save_vocabulary_json` (lines 83-86): `jsonify_vocabulary`, then
json.dump.  The written file is modelled by its JSON value. -/
def save_vocabulary_json (vocabulary : Vocabulary) : JVal :=
  .obj ((jsonify_vocabulary vocabulary).map (fun kv => (kv.1, entryToJson kv.2)))

def jsonTimestamp : JVal → Option ℚ
  | .float q => some q
  | .int n => some (n : ℚ)
  | _ => none

def jsonTimestampList : List JVal → Option (List ℚ)
  | [] => some []
  | x :: xs =>
    match jsonTimestamp x, jsonTimestampList xs with
    | some q, some qs => some (q :: qs)
    | _, _ => none

def groupFromJson : List (String × JVal) → Option (List (String × List ℚ))
  | [] => some []
  | (k, .arr xs) :: rest =>
    match jsonTimestampList xs, groupFromJson rest with
    | some qs, some m => some ((k, qs) :: m)
    | _, _ => none
  | _ => none

/-- The vocabulary-shaped reading of a parsed JSON occurrence value.
json.load itself returns raw lists and dicts; only the shapes the two
writers produce are given a reading here. -/
def jsonToOcc : JVal → Option OccVal
  | .arr xs => (jsonTimestampList xs).map .list
  | .obj kvs => (groupFromJson kvs).map .dictList
  | _ => none

def jsonToFreq : JVal → Option FreqVal
  | .int n => some (.int n)
  | .str s => some (.str s)
  | _ => none

def jsonToEntry : JVal → Option Entry
  | .obj [("frequency", fj), ("occurences", oj)] =>
    match jsonToFreq fj, jsonToOcc oj with
    | some f, some o => some ⟨f, o⟩
    | _, _ => none
  | _ => none

def loadJsonEntries : List (String × JVal) → Option Vocabulary
  | [] => some []
  | (k, ej) :: rest =>
    match jsonToEntry ej, loadJsonEntries rest with
    | some e, some v => some ((k, e) :: v)
    | _, _ => none

/-- The function `load_vocabulary_json` (lines 89-91): json.load of the file
contents.  The writer never produces duplicate keys, so the dict json
builds is the plain association list. -/
def load_vocabulary_json : JVal → Option Vocabulary
  | .obj kvs => loadJsonEntries kvs
  | _ => none

/-! ### Vocabulary store: CSV encoding -/

/-- One row of the CSV file: the dictionary-form cell, the frequency
cell (as csv.writer writes it, i.e. `str(frequency)`), and the
occurrences cell, represented by the JSON value whose `json.dumps` text
the cell holds (`json.loads` inverts `json.dumps` exactly, so the text
itself is not modelled). -/
abbrev CsvRow := String × String × JVal

/-- The comparison behind `sorted(..., key=lambda item: item[1],
reverse=True)` at lines 62-66: frequencies compare as Python compares
them; a mixed int/str comparison raises TypeError in Python and never
occurs in a run. -/
def freqLt : FreqVal → FreqVal → Bool
  | .int a, .int b => decide (a < b)
  | .str a, .str b => decide (a < b)
  | _, _ => false

/-- Stable descending insertion, matching Python's stable `sorted` with
`reverse=True`: a later element is placed after every earlier element
whose key is not strictly smaller. -/
def insertByFreqDesc (x : String × FreqVal × JVal) :
    List (String × FreqVal × JVal) → List (String × FreqVal × JVal)
  | [] => [x]
  | y :: ys => if freqLt y.2.1 x.2.1 then x :: y :: ys else y :: insertByFreqDesc x ys

def sortByFreqDesc (rows : List (String × FreqVal × JVal)) : List (String × FreqVal × JVal) :=
  rows.foldl (fun acc x => insertByFreqDesc x acc) []

/-- csv.writer stringifies each field; this is `str` on the frequency. -/
def freqCell : FreqVal → String
  | .int n => toString n
  | .str s => s

/-- The pre-stringification rows of `save_vocabulary_csv`:
`(key, value['frequency'], json.dumps(value['occurences']))` for each
item of the jsonified vocabulary, sorted by frequency descending. -/
def csv_sorted_rows (vocabulary : Vocabulary) : List (String × FreqVal × JVal) :=
  sortByFreqDesc ((jsonify_vocabulary vocabulary).map
    (fun kv => (kv.1, kv.2.frequency, occToJson kv.2.occurences)))

/-- The function `save_vocabulary_csv` (src/main.py lines 58-67). -/
def save_vocabulary_csv (vocabulary : Vocabulary) : List CsvRow :=
  (csv_sorted_rows vocabulary).map (fun r => (r.1, freqCell r.2.1, r.2.2))

def loadCsvRows : List CsvRow → Vocabulary → Option Vocabulary
  | [], vocabulary => some vocabulary
  | (k, f, oj) :: rest, vocabulary =>
    match jsonToOcc oj with
    | some o => loadCsvRows rest (dictAssign k ⟨.str f, o⟩ vocabulary)
    | none => none

/-- The function `load_vocabulary_csv` (lines 70-80): rebuild the dict row by row.
The frequency cell stays the raw string; the occurrences cell is
json.loads-ed. -/
def load_vocabulary_csv (rows : List CsvRow) : Option Vocabulary :=
  loadCsvRows rows []

/-! ### Query engine -/

def rtOpen : List Char := ['<', 'r', 't', '>']
def rtClose : List Char := ['<', '/', 'r', 't', '>']
def rubyOpen : List Char := ['<', 'r', 'u', 'b', 'y', '>']
def rubyClose : List Char := ['<', '/', 'r', 'u', 'b', 'y', '>']

/-- Scan to just past the first `</rt>` that occurs before any newline
(`.` in the non-greedy `RT_REGEX` does not match newlines); `none` when
the pattern cannot close. -/
def dropRtClose : List Char → Option (List Char)
  | [] => none
  | c :: rest =>
    if rtClose.isPrefixOf (c :: rest) then some ((c :: rest).drop 5)
    else if c = '\n' then none
    else dropRtClose rest

/-- Python `RT_REGEX.sub('', text)` on the character list.  The fuel is the
input length, enough for the scan because every step consumes at least
one character. -/
def stripRtAux : Nat → List Char → List Char
  | 0, cs => cs
  | _ + 1, [] => []
  | fuel + 1, c :: rest =>
    if rtOpen.isPrefixOf (c :: rest) then
      match dropRtClose ((c :: rest).drop 4) with
      | some remainder => stripRtAux fuel remainder
      | none => c :: stripRtAux fuel rest
    else c :: stripRtAux fuel rest

def stripRt (cs : List Char) : List Char := stripRtAux cs.length cs

/-- Python `RUBY_REGEX.sub('', text)`: delete every `<ruby>` and `</ruby>`. -/
def stripRubyAux : Nat → List Char → List Char
  | 0, cs => cs
  | _ + 1, [] => []
  | fuel + 1, c :: rest =>
    if rubyClose.isPrefixOf (c :: rest) then stripRubyAux fuel ((c :: rest).drop 7)
    else if rubyOpen.isPrefixOf (c :: rest) then stripRubyAux fuel ((c :: rest).drop 6)
    else c :: stripRubyAux fuel rest

def stripRuby (cs : List Char) : List Char := stripRubyAux cs.length cs

/-- Python `RUBY_REGEX.sub('', RT_REGEX.sub('', text))` as used at line 218. -/
def strip_markup (s : String) : String :=
  String.mk (stripRuby (stripRt s.toList))

def pad2 (n : ℕ) : String := if n < 10 then "0" ++ toString n else toString n

def padZeros (len : Nat) (s : String) : String :=
  String.mk (List.replicate (len - s.length) '0') ++ s

/-- Python `str(datetime.timedelta(seconds=t))` for the nonnegative times that
subtitles carry.  The microsecond count is the floor of `t * 10^6`,
which agrees with timedelta's rounding at the (at most millisecond)
resolution of subtitle timestamps. -/
def formatTimedelta (t : ℚ) : String :=
  let microTotal := (t.num * 1000000).toNat / t.den
  let micro := microTotal % 1000000
  let secondsTotal := microTotal / 1000000
  let days := secondsTotal / 86400
  let hours := secondsTotal % 86400 / 3600
  let minutes := secondsTotal % 3600 / 60
  let seconds := secondsTotal % 60
  let dayPart :=
    if days = 0 then ""
    else if days = 1 then "1 day, "
    else toString days ++ " days, "
  let microPart := if micro = 0 then "" else "." ++ padZeros 6 (toString micro)
  dayPart ++ toString hours ++ ":" ++ pad2 minutes ++ ":" ++ pad2 seconds ++ microPart

/-- The line printed at lines 216-219 for one timestamp and the caption
chosen for it. -/
def emit_line (t : ℚ) (caption : Caption) : String :=
  formatTimedelta t ++ ": " ++ strip_markup caption.raw_text

/-- The caption loop of `print_occurences_for_file_path` (lines
210-220); `idx` is `current_timestamp`.  Each printed line is modelled
as the pair of the timestamp it serves and the printed text. -/
def printLoop (timestamps : List ℚ) (idx : Nat) : List Caption → List (ℚ × String)
  | [] => []
  | caption :: rest =>
    match timestamps[idx]? with
    | none => []
    | some t =>
      if caption.end_in_seconds ≤ t then printLoop timestamps idx rest
      else (t, emit_line t caption) :: printLoop timestamps (idx + 1) rest

/-- The function `print_occurences_for_file_path` (src/main.py lines 205-220), with
the captions of the file passed in place of re-reading the path.
`timestamps.sort()` is Python's stable ascending sort. -/
def print_occurences_for_file_path (timestamps : List ℚ) (captions : List Caption) :
    List (ℚ × String) :=
  printLoop (List.insertionSort (· ≤ ·) timestamps) 0 captions

/-- The same rendering, written the way the specification describes it:
a merge-join of the caption scan against an ascending timestamp list,
emitting one line per timestamp from the first caption whose end time
exceeds it, and stopping when the timestamps run out. -/
def render_merge_join : List Caption → List ℚ → List (ℚ × String)
  | [], _ => []
  | _ :: _, [] => []
  | caption :: rest, t :: ts =>
    if caption.end_in_seconds ≤ t then render_merge_join rest (t :: ts)
    else (t, emit_line t caption) :: render_merge_join rest ts

/-- The outcome of `find_examples`: either the "not found" report of
line 238 or, per source file rendered, the printed file path header and
the emitted occurrence lines. -/
inductive FindOutcome where
  | notFound (query : String)
  | rendered (files : List (String × List (ℚ × String)))
deriving Repr

/-- Python `os.path.join` for the argument shapes the code uses. -/
def joinPath (a b : String) : String :=
  if b.startsWith "/" then b
  else if a = "" then b
  else if a.endsWith "/" then a ++ b
  else a ++ "/" ++ b

/-- The function `find_examples` (src/main.py lines 222-253) after the vocabulary
file has been loaded; `readVtt` stands for `webvtt.read`.  An argument
left `none` models an absent (falsy) CLI option. -/
def find_examples (query : String) (vocabulary : Vocabulary)
    (subtitles_directory subtitles_file : Option String)
    (readVtt : String → List Caption) : Except String FindOutcome :=
  if subtitles_directory.isNone && subtitles_file.isNone then
    .error "Either the subtitles directory or subtitles file should be specified"
  else
    match dictGet query vocabulary with
    | none => .ok (.notFound query)
    | some entry =>
      match entry.occurences with
      | .list ts =>
        match subtitles_file with
        | none => .error "vocabulary was generated for a single file which was not specified"
        | some f => .ok (.rendered [(f, print_occurences_for_file_path ts (readVtt f))])
      | .dictList m =>
        match subtitles_directory with
        | none => .error "vocabulary was generated for a directory which was not specified"
        | some d =>
          .ok (.rendered (m.map (fun p =>
            (joinPath d (p.1 ++ ".vtt"),
             print_occurences_for_file_path p.2 (readVtt (joinPath d (p.1 ++ ".vtt")))))))
      | .set _ => .error "AttributeError"
      | .dictSet _ => .error "AttributeError"

/-! A loaded vocabulary never holds raw sets, so the two `.set` branches
above (where Python would raise AttributeError on `.items()` or
`.sort()`) are unreachable in a run. -/

/-! ### Conversion driver -/

/-- Python `common += value` on frequencies (line 192).  Both sides are
integers during merging; Python would raise TypeError on a mix. -/
def freqAdd : FreqVal → FreqVal → FreqVal
  | .int a, .int b => .int (a + b)
  | a, _ => a

/-- The timestamp contents of a per-file `occurences` value; during
merging it is always a set. -/
def occTimestamps : OccVal → List ℚ
  | .set ts => ts
  | .list ts => ts
  | _ => []

/-- Lines 192-193 applied to one existing combined entry: add the file's
frequency, store the file's timestamp set under its base name.  Combined
entries are always grouped (they are created with `{}`), so the
non-grouped branch is unreachable. -/
def merge_entry (base_name : String) (value : Entry) (e : Entry) : Entry :=
  ⟨freqAdd e.frequency value.frequency,
   match e.occurences with
   | .dictSet m => .dictSet (dictAssign base_name (occTimestamps value.occurences) m)
   | o => o⟩

/-- The body of the merge loop (lines 188-193) for one item
`kv = (key, value)` of a per-file vocabulary: create the combined entry
with frequency 0 and an empty dict when the key is unseen, then apply
`merge_entry`. -/
def merge_step (base_name : String) (c : Vocabulary) (kv : String × Entry) : Vocabulary :=
  let c2 := if (dictGet kv.1 c).isSome then c
            else dictAssign kv.1 ⟨.int 0, .dictSet []⟩ c
  match dictGet kv.1 c2 with
  | some e => dictAssign kv.1 (merge_entry base_name kv.2 e) c2
  | none => c2

/-- The merge loop of `convert` (src/main.py lines 187-193): fold one
file's vocabulary into the combined vocabulary under the file's base
name. -/
def merge_file_vocabulary (common : Vocabulary) (base_name : String)
    (vocabulary : Vocabulary) : Vocabulary :=
  vocabulary.foldl (merge_step base_name) common

/-- The combined vocabulary accumulated across the processed files when
a single vocabulary file is requested. -/
def common_from_files (files : List (String × Vocabulary)) : Vocabulary :=
  files.foldl (fun c p => merge_file_vocabulary c p.1 p.2) []

/-- Python `os.path.splitext(filename)[0]` for the names `convert` processes:
drop the extension starting at the last dot, unless every character
before that dot is itself a dot. -/
def splitext_base (s : String) : String :=
  match s.toList.reverse.findIdx? (· = '.') with
  | none => s
  | some i =>
    let cut := s.length - 1 - i
    if (s.toList.take cut).all (· = '.') then s
    else String.mk (s.toList.take cut)

inductive VocabularyType where
  | json
  | csv
deriving DecidableEq, Repr

/-- One file written by a `convert` run.  The contents of an annotated
subtitle file are not modelled (no claim concerns them). -/
inductive OutFile where
  | vocabJson (path : String) (contents : JVal)
  | vocabCsv (path : String) (contents : List CsvRow)
  | annotatedSubtitles (path : String)
deriving Repr

/-- The external collaborators `convert` consumes: the directory
listing, the file test, the webvtt reader and the janome pipeline. -/
structure ConvertEnv where
  listdir : List String
  isFile : String → Bool
  readVtt : String → List Caption
  analyzer : String → List Morpheme

/-- The function `convert` (src/main.py lines 137-203).  The result lists, in order,
every file the run writes; `.error` is the exception raised at line 147,
before any filesystem access (the first I/O in the code is the
`os.path.exists` / `os.mkdir` / `os.listdir` sequence at lines
166-169, after the guard). -/
def convert (env : ConvertEnv) (input_directory : String)
    (output_directory : Option String) (add_furigana extract_vocabulary : Bool)
    (single_vocabulary_file : Option String) (vocabulary_type : VocabularyType) :
    Except String (List OutFile) :=
  if (add_furigana || (extract_vocabulary && single_vocabulary_file.isNone))
      && output_directory.isNone then
    .error "Output directory required when extracting vocabulary or adding furigana"
  else
    let out := output_directory.getD ""
    let files := env.listdir.filter (fun fn =>
      env.isFile (joinPath input_directory fn) && fn.toLower.endsWith ".vtt")
    let perFile := (files.map (fun fn =>
      let vocabOut :=
        if extract_vocabulary && single_vocabulary_file.isNone then
          let vocabulary := (analyze_subtitles (env.readVtt (joinPath input_directory fn)) env.analyzer).1
          match vocabulary_type with
          | .csv => [OutFile.vocabCsv (joinPath out (splitext_base fn ++ ".csv"))
                       (save_vocabulary_csv vocabulary)]
          | .json => [OutFile.vocabJson (joinPath out (splitext_base fn ++ ".json"))
                        (save_vocabulary_json vocabulary)]
        else []
      let furiganaOut := if add_furigana then [OutFile.annotatedSubtitles (joinPath out fn)] else []
      vocabOut ++ furiganaOut)).flatten
    let commonOut :=
      match single_vocabulary_file with
      | some svf =>
        if extract_vocabulary then
          let common := common_from_files (files.map (fun fn =>
            (splitext_base fn,
             (analyze_subtitles (env.readVtt (joinPath input_directory fn)) env.analyzer).1)))
          match vocabulary_type with
          | .csv => [OutFile.vocabCsv svf (save_vocabulary_csv common)]
          | .json => [OutFile.vocabJson svf (save_vocabulary_json common)]
        else []
      | none => []
    .ok (perFile ++ commonOut)

/-! ### Verification-level definitions -/

/-- Whether a frequency value is an integer. -/
def freqIsInt : FreqVal → Bool
  | .int _ => true
  | .str _ => false

/-- The shape of every vocabulary entry produced by aggregation: an
integer frequency and either a flat occurrence set (single-file) or a
grouped per-source mapping of sets (merged), without duplicates. -/
def entryAggWF (e : Entry) : Bool :=
  freqIsInt e.frequency &&
  (match e.occurences with
   | .set ts => decide ts.Nodup
   | .dictSet m => decide (keysOf m).Nodup && m.all (fun p => decide p.2.Nodup)
   | _ => false)

/-- The shape of every vocabulary produced by aggregation. -/
def vocabAggWF (v : Vocabulary) : Bool :=
  decide (keysOf v).Nodup && v.all (fun p => entryAggWF p.2)

/-- The integer reading of a frequency value (0 on the string shape,
which the callers rule out). -/
def freqIntOf : FreqVal → ℤ
  | .int n => n
  | .str _ => 0

/-- Occurrence preservation across one serialize/deserialize cycle: the
enumerated sequence holds exactly the original timestamps, as a
permutation (so no duplicate is introduced or lost and order is free);
for the grouped shape, the source names are preserved in order and each
source's sequence is a permutation of its original set. -/
def OccRoundTrip : OccVal → OccVal → Prop
  | .set ts, .list ts2 => List.Perm ts2 ts
  | .dictSet m, .dictList m2 =>
      m2.map Prod.fst = m.map Prod.fst ∧
      ∀ p2 ∈ m2, ∀ p ∈ m, p2.1 = p.1 → List.Perm p2.2 p.2
  | _, _ => False

/-- What one serialize/deserialize cycle preserves, for both encodings:
JSON keeps the key order, every frequency and every occurrence set; CSV
keeps the key set and every occurrence set, and turns the frequency
`n` into its decimal string. -/
def RoundTripPreserves (v : Vocabulary) : Prop :=
  (∃ v1, load_vocabulary_json (save_vocabulary_json v) = some v1 ∧
     keysOf v1 = keysOf v ∧
     (∀ k, (dictGet k v1).map Entry.frequency = (dictGet k v).map Entry.frequency) ∧
     (∀ k e e1, dictGet k v = some e → dictGet k v1 = some e1 →
        OccRoundTrip e.occurences e1.occurences))
  ∧ (∃ v2, load_vocabulary_csv (save_vocabulary_csv v) = some v2 ∧
     List.Perm (keysOf v2) (keysOf v) ∧
     (∀ k n, (dictGet k v).map Entry.frequency = some (.int n) →
        (dictGet k v2).map Entry.frequency = some (.str (toString n))) ∧
     (∀ k e e2, dictGet k v = some e → dictGet k v2 = some e2 →
        OccRoundTrip e.occurences e2.occurences))

/-- The number of retained matches of `form` among the morphemes of one
caption. -/
def caption_match_count (analyzer : String → List Morpheme) (form : String) (c : Caption) : ℕ :=
  (analyzer c.raw_text).countP (fun m => decide (retained_form m = some form))

/-- The number of retained matches of `form` across a caption sequence. -/
def match_total (analyzer : String → List Morpheme) (form : String) (subs : List Caption) : ℕ :=
  (subs.map (caption_match_count analyzer form)).sum

/-- The effect of `record_occurrence` on the entry of the recorded form. -/
def bumpWith (t : ℚ) : Option Entry → Entry
  | some e => ⟨freqSucc e.frequency, occAdd t e.occurences⟩
  | none => ⟨.int 1, .set [t]⟩

/-- The function `bumpWith` iterated. -/
def iterBump (t : ℚ) : ℕ → Option Entry → Option Entry
  | 0, cur => cur
  | n + 1, cur => iterBump t n (some (bumpWith t cur))

/-- One file's contribution to the combined frequency of `form`. -/
def file_contrib (form : String) (fv : String × Vocabulary) : ℤ :=
  match dictGet form fv.2 with
  | some e => freqIntOf e.frequency
  | none => 0

/-- One file's contribution to the combined occurrence mapping of
`form`: its timestamp set keyed by its base name, when present. -/
def file_group (form : String) (fv : String × Vocabulary) : Option (String × List ℚ) :=
  (dictGet form fv.2).map (fun e => (fv.1, occTimestamps e.occurences))

/-- The CSV row one vocabulary item becomes (key, stringified frequency,
occurrences JSON). -/
def csv_row_of (kv : String × Entry) : CsvRow :=
  (kv.1, freqCell kv.2.frequency, occToJson kv.2.occurences)

/-- The vocabulary item a CSV round trip hands back: the frequency as
its cell text, the occurrences as the jsonified (list-shaped) value. -/
def csv_loaded_entry (kv : String × Entry) : String × Entry :=
  (kv.1, ⟨.str (freqCell kv.2.frequency), jsonifyOcc kv.2.occurences⟩)

/-- What claim C9 asserts of a vocabulary: the CSV writer sorts its rows
by descending numeric frequency, yet the reload leaves every entry's
frequency as a string; an integer frequency `n` comes back as the
decimal string of `n`. -/
def CsvKeepsFrequencyText (v : Vocabulary) : Prop :=
  (csv_sorted_rows v).Pairwise (fun a b => freqIntOf b.2.1 ≤ freqIntOf a.2.1)
  ∧ ∃ v2, load_vocabulary_csv (save_vocabulary_csv v) = some v2
      ∧ (∀ p ∈ v2, ∃ s, p.2.frequency = .str s)
      ∧ (∀ k n, (dictGet k v).map Entry.frequency = some (.int n) →
          (dictGet k v2).map Entry.frequency = some (.str (toString n)))

/-- The timestamp 47.5 seconds, in kernel-reducible normal form. -/
def q47_5 : ℚ := Rat.mk' 95 2 (by decide) (by decide)

/-! Concrete example data used by the witness theorems. -/

/-- A morpheme with a plain retained base form. -/
def exMorphX : Morpheme := ⟨⟨"x", some "x", "名詞,一般"⟩, none⟩

/-- A morpheme with no citable form (no override, no base form). -/
def exMorphNB : Morpheme := ⟨⟨"?", none, "記号"⟩, none⟩

/-- An analyzer: "hello" yields two retained matches of "x" plus one
degenerate morpheme; every other caption yields one match of "x". -/
def exAnalyzer : String → List Morpheme :=
  fun s => if s = "hello" then [exMorphX, exMorphX, exMorphNB] else [exMorphX]

def exCaptions : List Caption := [⟨"hello", 2, 4⟩, ⟨"world", 7, 9⟩]

def exVocabA : Vocabulary := [("w", ⟨.int 2, .set [1, 6]⟩), ("y", ⟨.int 1, .set [1]⟩)]

def exVocabB : Vocabulary := [("w", ⟨.int 1, .set [2]⟩)]

def exFiles : List (String × Vocabulary) := [("ep1", exVocabA), ("ep2", exVocabB)]

/-! ### Association-list lemmas -/

theorem dictGet_dictAssign_self {α : Type} (k : String) (v : α) (l : List (String × α)) :
    dictGet k (dictAssign k v l) = some v := by
  induction l with
  | nil => simp [dictGet, dictAssign]
  | cons p rest ih =>
    obtain ⟨k2, v2⟩ := p
    by_cases h : k2 = k
    · subst h; simp [dictGet, dictAssign]
    · simp [dictGet, dictAssign, h, ih]

theorem dictGet_dictAssign_of_ne {α : Type} {q k : String} (h : q ≠ k) (v : α)
    (l : List (String × α)) : dictGet q (dictAssign k v l) = dictGet q l := by
  induction l with
  | nil => simp [dictGet, dictAssign, Ne.symm h]
  | cons p rest ih =>
    obtain ⟨k2, v2⟩ := p
    by_cases h2 : k2 = k
    · subst h2
      simp [dictGet, dictAssign, Ne.symm h]
    · simp only [dictAssign, if_neg h2, dictGet]
      by_cases h3 : k2 = q <;> simp [h3, ih]

theorem dictGet_eq_none_iff {α : Type} (k : String) (l : List (String × α)) :
    dictGet k l = none ↔ k ∉ keysOf l := by
  induction l with
  | nil => simp [dictGet, keysOf]
  | cons p rest ih =>
    obtain ⟨k2, v2⟩ := p
    by_cases h : k2 = k
    · subst h; simp [dictGet, keysOf]
    · simp [dictGet, keysOf, h, ih, Ne.symm h]

theorem dictGet_mem {α : Type} {k : String} {l : List (String × α)} {v : α}
    (h : dictGet k l = some v) : (k, v) ∈ l := by
  induction l with
  | nil => simp [dictGet] at h
  | cons p rest ih =>
    obtain ⟨k2, v2⟩ := p
    by_cases h2 : k2 = k
    · subst h2
      simp [dictGet] at h
      simp [h]
    · simp [dictGet, h2] at h
      simp [ih h]

theorem dictGet_of_mem_of_nodup {α : Type} {k : String} {l : List (String × α)} {v : α}
    (hnd : (keysOf l).Nodup) (h : (k, v) ∈ l) : dictGet k l = some v := by
  induction l with
  | nil => simp at h
  | cons p rest ih =>
    obtain ⟨k2, v2⟩ := p
    simp only [keysOf, List.map_cons, List.nodup_cons] at hnd
    rcases List.mem_cons.mp h with h1 | h1
    · simp only [Prod.mk.injEq] at h1
      obtain ⟨rfl, rfl⟩ := h1
      simp [dictGet]
    · have hne : k2 ≠ k := by
        rintro rfl
        exact hnd.1 (List.mem_map.mpr ⟨(k2, v), h1, rfl⟩)
      simp [dictGet, hne, ih hnd.2 h1]

theorem dictAssign_of_not_mem {α : Type} {k : String} {l : List (String × α)}
    (h : k ∉ keysOf l) (v : α) : dictAssign k v l = l ++ [(k, v)] := by
  induction l with
  | nil => simp [dictAssign]
  | cons p rest ih =>
    obtain ⟨k2, v2⟩ := p
    simp only [keysOf, List.map_cons, List.mem_cons] at h
    push_neg at h
    simp [dictAssign, Ne.symm h.1, ih h.2]

theorem keysOf_dictAssign_subset {α : Type} (k : String) (v : α) (l : List (String × α)) :
    keysOf (dictAssign k v l) ⊆ k :: keysOf l := by
  induction l with
  | nil => simp [dictAssign, keysOf]
  | cons p rest ih =>
    obtain ⟨k2, v2⟩ := p
    by_cases h : k2 = k
    · subst h
      simp only [dictAssign, if_pos rfl, keysOf, List.map_cons]
      intro x hx
      rcases List.mem_cons.mp hx with h1 | h1
      · exact List.mem_cons.mpr (Or.inl h1)
      · exact List.mem_cons.mpr (Or.inr (List.mem_cons.mpr (Or.inr h1)))
    · simp only [dictAssign, if_neg h, keysOf, List.map_cons]
      intro x hx
      rcases List.mem_cons.mp hx with h1 | h1
      · exact List.mem_cons.mpr (Or.inr (List.mem_cons.mpr (Or.inl h1)))
      · rcases List.mem_cons.mp (ih h1) with h2 | h2
        · exact List.mem_cons.mpr (Or.inl h2)
        · exact List.mem_cons.mpr (Or.inr (List.mem_cons.mpr (Or.inr h2)))

/-! ### Lexical filter: claim C5 -/

/-- C5: the lexical filter excludes a morpheme iff its part-of-speech
tag starts with at least one prefix of the fixed exclusion list; the
match is a prefix match, not an exact one (witnessed by a tag that is
excluded without being a member of the list); and the verdict is a pure
function of the tag. -/
theorem filter_node_prefix_spec (n : Node) :
    (filter_node n = true ↔ ∃ p ∈ POS_FILTER, p.toList.isPrefixOf n.part_of_speech.toList = true)
  ∧ (∀ n2 : Node, n.part_of_speech = n2.part_of_speech → filter_node n = filter_node n2)
  ∧ (filter_node ⟨"", none, "名詞,接尾,一般"⟩ = true ∧ "名詞,接尾,一般" ∉ POS_FILTER) := by
  refine ⟨?_, ?_, ?_, ?_⟩
  · simp [filter_node, List.any_eq_true]
  · intro n2 h
    simp [filter_node, h]
  · decide
  · decide

/-- C5 witness: a particle tag is excluded via the "助詞" prefix. -/
theorem filter_node_prefix_spec_witness :
    filter_node ⟨"は", none, "助詞,係助詞"⟩ = true :=
  (filter_node_prefix_spec ⟨"は", none, "助詞,係助詞"⟩).1.mpr ⟨"助詞", by decide, by decide⟩

/-! ### Conversion guard: claim C8 -/

/-- C8: `convert` raises a configuration error, before any file I/O,
exactly when furigana is requested without an output directory or when
vocabulary extraction is requested without both a single combined output
file and an output directory; in the model the error branch carries no
written file.  The second conjunct is the claim's particular instance:
extraction requested, no single vocabulary file, no output directory. -/
theorem convert_guard_spec (env : ConvertEnv) (input_directory : String)
    (output_directory : Option String) (add_furigana extract_vocabulary : Bool)
    (single_vocabulary_file : Option String) (vocabulary_type : VocabularyType) :
    ((∃ msg, convert env input_directory output_directory add_furigana extract_vocabulary
        single_vocabulary_file vocabulary_type = .error msg) ↔
      ((add_furigana = true ∧ output_directory = none) ∨
       (extract_vocabulary = true ∧ single_vocabulary_file = none ∧ output_directory = none)))
  ∧ (extract_vocabulary = true → single_vocabulary_file = none → output_directory = none →
      convert env input_directory output_directory add_furigana extract_vocabulary
        single_vocabulary_file vocabulary_type =
        .error "Output directory required when extracting vocabulary or adding furigana") := by
  have hguard : ((add_furigana || (extract_vocabulary && single_vocabulary_file.isNone))
      && output_directory.isNone) = true ↔
      ((add_furigana = true ∧ output_directory = none) ∨
       (extract_vocabulary = true ∧ single_vocabulary_file = none ∧ output_directory = none)) := by
    simp [Bool.and_eq_true, Bool.or_eq_true, Option.isNone_iff_eq_none]
    tauto
  constructor
  · by_cases hg : ((add_furigana || (extract_vocabulary && single_vocabulary_file.isNone))
        && output_directory.isNone) = true
    · simp only [convert, hg, if_true]
      exact ⟨fun _ => hguard.mp hg, fun _ => ⟨_, rfl⟩⟩
    · simp only [convert, hg, Bool.false_eq_true, if_false]
      constructor
      · rintro ⟨msg, hmsg⟩
        cases hmsg
      · intro h
        exact absurd (hguard.mpr h) hg
  · intro he hs ho
    subst he; subst hs; subst ho
    simp [convert]

/-- C8 witness: the claim's concrete configuration-error instance. -/
theorem convert_guard_spec_witness :
    convert ⟨[], fun _ => false, fun _ => [], fun _ => []⟩ "input" none false true none .json =
      .error "Output directory required when extracting vocabulary or adding furigana" :=
  (convert_guard_spec ⟨[], fun _ => false, fun _ => [], fun _ => []⟩
    "input" none false true none .json).2 rfl rfl rfl

/-! ### Query engine dispatch: claims C6 and C7 -/

/-- C6: querying a word absent from the loaded vocabulary yields the
non-fatal "not found" outcome and returns; no exception is raised (the
run reached the vocabulary load, so at least one of the two subtitle
source options was given). -/
theorem find_examples_notFound (query : String) (vocabulary : Vocabulary)
    (subtitles_directory subtitles_file : Option String)
    (readVtt : String → List Caption)
    (habsent : dictGet query vocabulary = none)
    (hgiven : subtitles_directory ≠ none ∨ subtitles_file ≠ none) :
    find_examples query vocabulary subtitles_directory subtitles_file readVtt =
      .ok (.notFound query) := by
  have hb : (subtitles_directory.isNone && subtitles_file.isNone) = false := by
    rcases hgiven with h | h
    · cases subtitles_directory with
      | none => exact absurd rfl h
      | some d => simp
    · cases subtitles_file with
      | none => exact absurd rfl h
      | some f => simp
  simp [find_examples, hb, habsent]

/-- C6 witness. -/
theorem find_examples_notFound_witness :
    find_examples "w" [] none (some "f.vtt") (fun _ => []) = .ok (.notFound "w") :=
  find_examples_notFound "w" [] none (some "f.vtt") (fun _ => []) rfl
    (Or.inr (by simp))

/-- C7: for a query present in the loaded vocabulary, `find_examples`
dispatches on the shape of the occurrence value: a flat timestamp
sequence requires `subtitles_file` (configuration error otherwise) and
renders against that one file; a mapping from source name to timestamp
sequences requires `subtitles_directory` (error otherwise) and renders
each source against directory-joined name plus the ".vtt" extension. -/
theorem find_examples_shape_dispatch (query : String) (vocabulary : Vocabulary)
    (subtitles_directory subtitles_file : Option String)
    (readVtt : String → List Caption) (entry : Entry)
    (hfound : dictGet query vocabulary = some entry) :
    (∀ ts, entry.occurences = .list ts →
       (subtitles_file = none →
          ∃ msg, find_examples query vocabulary subtitles_directory subtitles_file readVtt =
            .error msg)
     ∧ (∀ f, subtitles_file = some f →
          find_examples query vocabulary subtitles_directory subtitles_file readVtt =
            .ok (.rendered [(f, print_occurences_for_file_path ts (readVtt f))])))
  ∧ (∀ m, entry.occurences = .dictList m →
       (subtitles_directory = none →
          ∃ msg, find_examples query vocabulary subtitles_directory subtitles_file readVtt =
            .error msg)
     ∧ (∀ d, subtitles_directory = some d →
          find_examples query vocabulary subtitles_directory subtitles_file readVtt =
            .ok (.rendered (m.map (fun p =>
              (joinPath d (p.1 ++ ".vtt"),
               print_occurences_for_file_path p.2 (readVtt (joinPath d (p.1 ++ ".vtt"))))))))) := by
  constructor
  · intro ts hocc
    constructor
    · intro hf
      subst hf
      cases subtitles_directory with
      | none =>
        exact ⟨"Either the subtitles directory or subtitles file should be specified",
          by simp [find_examples]⟩
      | some d =>
        exact ⟨"vocabulary was generated for a single file which was not specified",
          by simp [find_examples, hfound, hocc]⟩
    · intro f hf
      subst hf
      simp [find_examples, hfound, hocc]
  · intro m hocc
    constructor
    · intro hd
      subst hd
      cases subtitles_file with
      | none =>
        exact ⟨"Either the subtitles directory or subtitles file should be specified",
          by simp [find_examples]⟩
      | some f =>
        exact ⟨"vocabulary was generated for a directory which was not specified",
          by simp [find_examples, hfound, hocc]⟩
    · intro d hd
      subst hd
      simp [find_examples, hfound, hocc]

/-- C7 witness: the flat shape rendered against the given single file. -/
theorem find_examples_shape_dispatch_witness :
    find_examples "w" [("w", ⟨.int 1, .list [2]⟩)] none (some "f") (fun _ => []) =
      .ok (.rendered [("f", print_occurences_for_file_path [2] [])]) :=
  ((find_examples_shape_dispatch "w" [("w", ⟨.int 1, .list [2]⟩)] none (some "f")
      (fun _ => []) ⟨.int 1, .list [2]⟩ rfl).1 [2] rfl).2 "f" rfl

/-! ### Rendering: claims C4 and C10 -/

theorem printLoop_eq_merge_join (ts : List ℚ) (captions : List Caption) :
    ∀ idx, printLoop ts idx captions = render_merge_join captions (ts.drop idx) := by
  induction captions with
  | nil => intro idx; simp [printLoop, render_merge_join]
  | cons caption rest ih =>
    intro idx
    cases hd : ts.drop idx with
    | nil =>
      have hlen : ts.length ≤ idx := by
        have := congrArg List.length hd
        simp only [List.length_drop, List.length_nil] at this
        omega
      simp [printLoop, List.getElem?_eq_none hlen, render_merge_join]
    | cons t ds =>
      have hget : ts[idx]? = some t := by
        have h0 : (ts.drop idx)[0]? = ts[idx]? := by
          rw [List.getElem?_drop]
          norm_num
        rw [hd] at h0
        simpa using h0.symm
      have hdrop : ts.drop (idx + 1) = ds := by
        have := List.tail_drop ts idx
        rw [hd] at this
        simpa using this.symm
      rw [printLoop, hget]
      by_cases hle : caption.end_in_seconds ≤ t
      · simp only [hle, if_true, render_merge_join, ih idx, hd]
      · simp only [hle, if_false, render_merge_join, ih (idx + 1), hdrop]

theorem print_occurences_eq_merge_join (timestamps : List ℚ) (captions : List Caption) :
    print_occurences_for_file_path timestamps captions =
      render_merge_join captions (List.insertionSort (· ≤ ·) timestamps) := by
  have := printLoop_eq_merge_join (List.insertionSort (· ≤ ·) timestamps) captions 0
  simpa [print_occurences_for_file_path] using this

/-- Every emitted line answers a caption whose end time strictly exceeds
the line's timestamp. -/
theorem mem_render_merge_join {captions : List Caption} {ts : List ℚ} {p : ℚ × String}
    (h : p ∈ render_merge_join captions ts) :
    ∃ c ∈ captions, p.1 < c.end_in_seconds := by
  induction captions generalizing ts with
  | nil => simp [render_merge_join] at h
  | cons caption rest ih =>
    cases ts with
    | nil => simp [render_merge_join] at h
    | cons t ts2 =>
      rw [render_merge_join] at h
      by_cases hle : caption.end_in_seconds ≤ t
      · rw [if_pos hle] at h
        obtain ⟨c, hc, hlt⟩ := ih h
        exact ⟨c, List.mem_cons.mpr (Or.inr hc), hlt⟩
      · rw [if_neg hle] at h
        rcases List.mem_cons.mp h with h1 | h1
        · refine ⟨caption, List.mem_cons.mpr (Or.inl rfl), ?_⟩
          rw [h1]
          exact lt_of_not_le hle
        · obtain ⟨c, hc, hlt⟩ := ih h1
          exact ⟨c, List.mem_cons.mpr (Or.inr hc), hlt⟩

/-- C4: rendering sorts the timestamps ascending and runs the single
forward merge-join scan over the captions (first conjunct); on the
claim's concrete instance, timestamps 12.0 and 47.5 against captions
ending at 10.0, 15.0 and 48.0 emit the captions ending at 15.0 and 48.0,
in ascending timestamp order, each line carrying the
hours:minutes:seconds rendering and the markup-stripped text. -/
theorem print_occurences_merge_join_spec :
    (∀ (timestamps : List ℚ) (captions : List Caption),
       print_occurences_for_file_path timestamps captions =
         render_merge_join captions (List.insertionSort (· ≤ ·) timestamps))
  ∧ q47_5 = 47.5
  ∧ print_occurences_for_file_path [12, q47_5]
      [⟨"capA", 8, 10⟩, ⟨"capB", 11, 15⟩, ⟨"capC", 46, 48⟩] =
      [(12, "0:00:12: capB"), (q47_5, "0:00:47.500000: capC")] := by
  refine ⟨print_occurences_eq_merge_join, ?_, ?_⟩
  · norm_num [q47_5, Rat.mk'_eq_divInt, Rat.divInt_eq_div]
  · decide

/-- C10: a target timestamp at or past the end time of every caption in
the file is silently dropped, together with every later timestamp: no
line is emitted for any of them, and the (total) scan just ends. -/
theorem print_occurences_drops_late_timestamps (timestamps : List ℚ)
    (captions : List Caption) (t : ℚ)
    (hlate : ∀ c ∈ captions, c.end_in_seconds ≤ t) :
    ∀ t2, t ≤ t2 → ∀ line, (t2, line) ∉ print_occurences_for_file_path timestamps captions := by
  intro t2 ht2 line hmem
  rw [print_occurences_eq_merge_join] at hmem
  obtain ⟨c, hc, hlt⟩ := mem_render_merge_join hmem
  exact absurd ((hlate c hc).trans ht2) (not_le.mpr hlt)

/-- C10 witness: a timestamp past the last caption end emits nothing. -/
theorem print_occurences_drops_late_timestamps_witness :
    ((50 : ℚ), "0:00:50: capA") ∉
      print_occurences_for_file_path [50] [⟨"capA", 8, 10⟩] :=
  print_occurences_drops_late_timestamps [50] [⟨"capA", 8, 10⟩] 50
    (by decide) 50 le_rfl "0:00:50: capA"

/-! ### Aggregation: claim C3 -/

theorem mem_setAdd_self (t : ℚ) (ts : List ℚ) : t ∈ setAdd t ts := by
  by_cases h : t ∈ ts <;> simp [setAdd, h]

theorem mem_setAdd {q t : ℚ} {ts : List ℚ} : q ∈ setAdd t ts ↔ q = t ∨ q ∈ ts := by
  unfold setAdd
  by_cases h : t ∈ ts
  · rw [if_pos h]
    constructor
    · exact Or.inr
    · rintro (rfl | hq)
      · exact h
      · exact hq
  · rw [if_neg h, List.mem_append, List.mem_singleton]
    tauto

theorem setAdd_nodup {t : ℚ} {ts : List ℚ} (h : ts.Nodup) : (setAdd t ts).Nodup := by
  unfold setAdd
  by_cases hm : t ∈ ts
  · rw [if_pos hm]; exact h
  · rw [if_neg hm]
    simp [List.nodup_append, h, hm]

theorem record_occurrence_get_self (v : Vocabulary) (f : String) (t : ℚ) :
    dictGet f (record_occurrence v f t) = some (bumpWith t (dictGet f v)) := by
  cases h : dictGet f v with
  | some e =>
    simp [record_occurrence, h, dictGet_dictAssign_self, bumpWith]
  | none =>
    simp [record_occurrence, h, dictGet_dictAssign_self, bumpWith, freqSucc, occAdd, setAdd]

theorem record_occurrence_get_ne {g f : String} (h : g ≠ f) (v : Vocabulary) (t : ℚ) :
    dictGet g (record_occurrence v f t) = dictGet g v := by
  unfold record_occurrence
  cases hf : dictGet f v with
  | some e => simp [hf, dictGet_dictAssign_of_ne h]
  | none => simp [hf, dictGet_dictAssign_self, dictGet_dictAssign_of_ne h]

theorem process_morphemes_get (t : ℚ) (form : String) :
    ∀ (ms : List Morpheme) (v : Vocabulary),
      dictGet form (process_morphemes t ms v).1 =
        iterBump t (ms.countP (fun m => decide (retained_form m = some form)))
          (dictGet form v) := by
  intro ms
  induction ms with
  | nil => intro v; simp [process_morphemes, iterBump]
  | cons m rest ih =>
    intro v
    simp only [process_morphemes]
    cases hr : retained_form m with
    | some g =>
      by_cases hg : g = form
      · subst hg
        rw [ih, record_occurrence_get_self]
        have hc : (m :: rest).countP (fun m => decide (retained_form m = some g)) =
            rest.countP (fun m => decide (retained_form m = some g)) + 1 := by
          simp [List.countP_cons, hr]
        rw [hc]
        rfl
      · have hne : form ≠ g := fun hh => hg hh.symm
        rw [ih, record_occurrence_get_ne hne]
        have hc : (m :: rest).countP (fun m => decide (retained_form m = some form)) =
            rest.countP (fun m => decide (retained_form m = some form)) := by
          simp [List.countP_cons, hr, hg]
        rw [hc]
    | none =>
      have hc : (m :: rest).countP (fun m => decide (retained_form m = some form)) =
          rest.countP (fun m => decide (retained_form m = some form)) := by
        simp [List.countP_cons, hr]
      by_cases hb : (m.extra.isNone && m.node.base_form.isNone) = true
      · simp [hb, hc, ih]
      · simp only [Bool.not_eq_true] at hb
        simp [hb, hc, ih]

theorem process_morphemes_logs (t : ℚ) :
    ∀ (ms : List Morpheme) (v : Vocabulary),
      (process_morphemes t ms v).2 =
        (ms.filter (fun m => m.extra.isNone && m.node.base_form.isNone)).map
          no_base_form_message := by
  intro ms
  induction ms with
  | nil => intro v; simp [process_morphemes]
  | cons m rest ih =>
    intro v
    simp only [process_morphemes]
    cases hr : retained_form m with
    | some g =>
      have hb : (m.extra.isNone && m.node.base_form.isNone) = false := by
        cases hx : m.extra with
        | some e => simp [hx]
        | none =>
          cases hbf : m.node.base_form with
          | some b => simp [hbf]
          | none =>
            exfalso
            rw [retained_form, hx, hbf] at hr
            cases hr
      simp [hb, ih, List.filter_cons, hr]
    | none =>
      by_cases hb : (m.extra.isNone && m.node.base_form.isNone) = true
      · simp [hb, ih, List.filter_cons]
      · simp only [Bool.not_eq_true] at hb
        simp [hb, ih, List.filter_cons]

theorem iterBump_mem (t : ℚ) {ts : List ℚ} (h : t ∈ ts) :
    ∀ (n : ℕ) (a : ℤ), iterBump t n (some ⟨.int a, .set ts⟩) = some ⟨.int (a + n), .set ts⟩ := by
  intro n
  induction n with
  | zero => intro a; simp [iterBump]
  | succ m ih =>
    intro a
    have hstep : bumpWith t (some ⟨.int a, .set ts⟩) = ⟨.int (a + 1), .set ts⟩ := by
      simp [bumpWith, freqSucc, occAdd, setAdd, h]
    rw [show iterBump t (m + 1) (some ⟨.int a, .set ts⟩) =
          iterBump t m (some (bumpWith t (some ⟨.int a, .set ts⟩))) from rfl,
        hstep, ih (a + 1)]
    have harith : a + 1 + (m : ℤ) = a + ((m + 1 : ℕ) : ℤ) := by push_cast; ring
    rw [harith]

theorem iterBump_none (t : ℚ) {n : ℕ} (h : 0 < n) :
    iterBump t n none = some ⟨.int n, .set [t]⟩ := by
  cases n with
  | zero => exact absurd h (by omega)
  | succ m =>
    rw [show iterBump t (m + 1) none = iterBump t m (some (bumpWith t none)) from rfl,
        show bumpWith t none = ⟨.int 1, .set [t]⟩ from rfl,
        iterBump_mem t (List.mem_singleton_self t) m 1]
    have harith : (1 : ℤ) + (m : ℤ) = ((m + 1 : ℕ) : ℤ) := by push_cast; ring
    rw [harith]

theorem iterBump_some (t : ℚ) {n : ℕ} (h : 0 < n) (a : ℤ) (ts : List ℚ) :
    iterBump t n (some ⟨.int a, .set ts⟩) =
      some ⟨.int (a + n), .set (setAdd t ts)⟩ := by
  cases n with
  | zero => exact absurd h (by omega)
  | succ m =>
    have hstep : bumpWith t (some ⟨.int a, .set ts⟩) = ⟨.int (a + 1), .set (setAdd t ts)⟩ := by
      simp [bumpWith, freqSucc, occAdd]
    rw [show iterBump t (m + 1) (some ⟨.int a, .set ts⟩) =
          iterBump t m (some (bumpWith t (some ⟨.int a, .set ts⟩))) from rfl,
        hstep, iterBump_mem t (mem_setAdd_self t ts) m (a + 1)]
    have harith : a + 1 + (m : ℤ) = a + ((m + 1 : ℕ) : ℤ) := by push_cast; ring
    rw [harith]

theorem analyze_append (subs : List Caption) (c : Caption) (an : String → List Morpheme) :
    analyze_subtitles (subs ++ [c]) an =
      ((process_morphemes c.start_in_seconds (an c.raw_text) (analyze_subtitles subs an).1).1,
       (analyze_subtitles subs an).2 ++
         (process_morphemes c.start_in_seconds (an c.raw_text) (analyze_subtitles subs an).1).2) := by
  simp [analyze_subtitles, List.foldl_append]

theorem match_total_append (an : String → List Morpheme) (form : String)
    (subs : List Caption) (c : Caption) :
    match_total an form (subs ++ [c]) =
      match_total an form subs + caption_match_count an form c := by
  simp [match_total]

theorem analyze_subtitles_logs (an : String → List Morpheme) :
    ∀ subs : List Caption,
      (analyze_subtitles subs an).2 =
        (subs.map (fun c => ((an c.raw_text).filter
            (fun m => m.extra.isNone && m.node.base_form.isNone)).map
          no_base_form_message)).flatten := by
  intro subs
  induction subs using List.reverseRecOn with
  | nil => simp [analyze_subtitles]
  | append_singleton subs c ih =>
    rw [analyze_append]
    simp [ih, process_morphemes_logs]

theorem analyze_subtitles_get (an : String → List Morpheme) (form : String) :
    ∀ subs : List Caption,
    (match_total an form subs = 0 → dictGet form (analyze_subtitles subs an).1 = none)
    ∧ (0 < match_total an form subs →
        ∃ ts, dictGet form (analyze_subtitles subs an).1 =
            some ⟨.int (match_total an form subs), .set ts⟩
          ∧ ts.Nodup
          ∧ ∀ q : ℚ, (q ∈ ts ↔ ∃ c ∈ subs, 0 < caption_match_count an form c
              ∧ c.start_in_seconds = q)) := by
  intro subs
  induction subs using List.reverseRecOn with
  | nil =>
    constructor
    · intro _
      simp [analyze_subtitles, dictGet]
    · intro h
      simp [match_total] at h
  | append_singleton subs c ih =>
    have hget : dictGet form (analyze_subtitles (subs ++ [c]) an).1 =
        iterBump c.start_in_seconds (caption_match_count an form c)
          (dictGet form (analyze_subtitles subs an).1) := by
      rw [analyze_append]
      exact process_morphemes_get c.start_in_seconds form (an c.raw_text) _
    have htot := match_total_append an form subs c
    constructor
    · intro h0
      have hT : match_total an form subs = 0 := by omega
      have hk : caption_match_count an form c = 0 := by omega
      rw [hget, hk, ih.1 hT]
      simp [iterBump]
    · intro hpos
      by_cases hk : caption_match_count an form c = 0
      · have hT : 0 < match_total an form subs := by omega
        obtain ⟨ts, hts, hnd, hmem⟩ := ih.2 hT
        refine ⟨ts, ?_, hnd, ?_⟩
        · rw [hget, hk, hts]
          simp only [iterBump]
          rw [htot, hk]
          norm_num
        · intro q
          rw [hmem q]
          constructor
          · rintro ⟨c2, hc2, h1, h2⟩
            exact ⟨c2, List.mem_append.mpr (Or.inl hc2), h1, h2⟩
          · rintro ⟨c2, hc2, h1, h2⟩
            rcases List.mem_append.mp hc2 with h3 | h3
            · exact ⟨c2, h3, h1, h2⟩
            · rw [List.mem_singleton] at h3
              subst h3
              omega
      · have hkpos : 0 < caption_match_count an form c := Nat.pos_of_ne_zero hk
        by_cases hT : match_total an form subs = 0
        · have hnone := ih.1 hT
          have hzero : ∀ c2 ∈ subs, caption_match_count an form c2 = 0 := by
            intro c2 hc2
            have hmm : caption_match_count an form c2 ∈
                subs.map (caption_match_count an form) := List.mem_map_of_mem _ hc2
            exact List.sum_eq_zero_iff.mp hT _ hmm
          refine ⟨[c.start_in_seconds], ?_, List.nodup_singleton _, ?_⟩
          · rw [hget, hnone, iterBump_none _ hkpos, htot, hT]
            norm_num
          · intro q
            rw [List.mem_singleton]
            constructor
            · rintro rfl
              exact ⟨c, List.mem_append.mpr (Or.inr (List.mem_singleton_self c)), hkpos, rfl⟩
            · rintro ⟨c2, hc2, h1, h2⟩
              rcases List.mem_append.mp hc2 with h3 | h3
              · rw [hzero c2 h3] at h1
                omega
              · rw [List.mem_singleton] at h3
                subst h3
                exact h2.symm
        · have hTpos : 0 < match_total an form subs := Nat.pos_of_ne_zero hT
          obtain ⟨ts, hts, hnd, hmem⟩ := ih.2 hTpos
          refine ⟨setAdd c.start_in_seconds ts, ?_, setAdd_nodup hnd, ?_⟩
          · rw [hget, hts, iterBump_some _ hkpos, htot]
            have harith : ((match_total an form subs : ℤ) + (caption_match_count an form c : ℤ)) =
                ((match_total an form subs + caption_match_count an form c : ℕ) : ℤ) := by
              push_cast; ring
            rw [harith]
          · intro q
            rw [mem_setAdd]
            constructor
            · rintro (rfl | hq)
              · exact ⟨c, List.mem_append.mpr (Or.inr (List.mem_singleton_self c)), hkpos, rfl⟩
              · obtain ⟨c2, hc2, h1, h2⟩ := (hmem q).mp hq
                exact ⟨c2, List.mem_append.mpr (Or.inl hc2), h1, h2⟩
            · rintro ⟨c2, hc2, h1, h2⟩
              rcases List.mem_append.mp hc2 with h3 | h3
              · exact Or.inr ((hmem q).mpr ⟨c2, h3, h1, h2⟩)
              · rw [List.mem_singleton] at h3
                subst h3
                exact Or.inl h2.symm

/-- C3: during single-file aggregation, the dictionary form of a
morpheme is the analyzer's explicit override field when present,
otherwise its base form after passing the lexical filter, otherwise the
morpheme is skipped with a "No base form" log line; a retained form's
entry starts at frequency 0 with an empty occurrence set, every retained
match adds 1 to the frequency and adds the caption's start time to the
set, so repeated matches within one caption contribute its start time
only once. -/
theorem analyze_subtitles_spec (subs : List Caption) (an : String → List Morpheme)
    (form : String) :
    (∀ m : Morpheme, ∀ ex, m.extra = some ex → retained_form m = some ex.dict_form)
  ∧ (∀ m : Morpheme, ∀ b, m.extra = none → m.node.base_form = some b →
       retained_form m = if filter_node m.node then none else some b)
  ∧ (∀ m : Morpheme, m.extra = none → m.node.base_form = none → retained_form m = none)
  ∧ ((analyze_subtitles subs an).2 =
      (subs.map (fun c => ((an c.raw_text).filter
          (fun m => m.extra.isNone && m.node.base_form.isNone)).map
        no_base_form_message)).flatten)
  ∧ (match_total an form subs = 0 → dictGet form (analyze_subtitles subs an).1 = none)
  ∧ (0 < match_total an form subs →
      ∃ ts, dictGet form (analyze_subtitles subs an).1 =
          some ⟨.int (match_total an form subs), .set ts⟩
        ∧ ts.Nodup
        ∧ ∀ q : ℚ, (q ∈ ts ↔ ∃ c ∈ subs, 0 < caption_match_count an form c
            ∧ c.start_in_seconds = q)) := by
  refine ⟨?_, ?_, ?_, analyze_subtitles_logs an subs,
    (analyze_subtitles_get an form subs).1, (analyze_subtitles_get an form subs).2⟩
  · intro m ex hex
    simp [retained_form, hex]
  · intro m b hex hb
    simp [retained_form, hex, hb]
  · intro m hex hb
    simp [retained_form, hex, hb]

/-- C3 witness: two retained matches inside one caption contribute its
start time once; a third match comes from the second caption. -/
theorem analyze_subtitles_spec_witness :
    match_total exAnalyzer "x" exCaptions = 3 ∧
    (∃ ts, dictGet "x" (analyze_subtitles exCaptions exAnalyzer).1 =
        some ⟨.int (match_total exAnalyzer "x" exCaptions), .set ts⟩
      ∧ ts.Nodup
      ∧ ∀ q : ℚ, (q ∈ ts ↔ ∃ c ∈ exCaptions, 0 < caption_match_count exAnalyzer "x" c
          ∧ c.start_in_seconds = q)) :=
  ⟨by decide, (analyze_subtitles_spec exCaptions exAnalyzer "x").2.2.2.2.2 (by decide)⟩

/-! ### Merged aggregation: claim C2 -/

theorem merge_step_get_self (bn : String) (c : Vocabulary) (k : String) (e : Entry) :
    dictGet k (merge_step bn c (k, e)) =
      some (merge_entry bn e ((dictGet k c).getD ⟨.int 0, .dictSet []⟩)) := by
  unfold merge_step
  cases h : dictGet k c with
  | some e0 => simp [h, dictGet_dictAssign_self]
  | none => simp [h, dictGet_dictAssign_self]

theorem merge_step_get_ne {g : String} (bn : String) (c : Vocabulary) {k : String} (e : Entry)
    (h : g ≠ k) : dictGet g (merge_step bn c (k, e)) = dictGet g c := by
  unfold merge_step
  cases hc : dictGet k c with
  | some e0 => simp [hc, dictGet_dictAssign_of_ne h]
  | none => simp [hc, dictGet_dictAssign_self, dictGet_dictAssign_of_ne h]

theorem merge_file_get (bn form : String) :
    ∀ (v c : Vocabulary), (keysOf v).Nodup →
      (dictGet form v = none →
        dictGet form (merge_file_vocabulary c bn v) = dictGet form c)
      ∧ (∀ e, dictGet form v = some e →
          dictGet form (merge_file_vocabulary c bn v) =
            some (merge_entry bn e ((dictGet form c).getD ⟨.int 0, .dictSet []⟩))) := by
  intro v
  induction v with
  | nil =>
    intro c _
    constructor
    · intro _; rfl
    · intro e he; simp [dictGet] at he
  | cons kv rest ih =>
    intro c hnd
    obtain ⟨k, e0⟩ := kv
    simp only [keysOf, List.map_cons, List.nodup_cons] at hnd
    have hstep : merge_file_vocabulary c bn ((k, e0) :: rest) =
        merge_file_vocabulary (merge_step bn c (k, e0)) bn rest := rfl
    by_cases hk : k = form
    · subst hk
      have hrest : dictGet k rest = none := by
        rw [dictGet_eq_none_iff]
        exact hnd.1
      constructor
      · intro habs
        simp [dictGet] at habs
      · intro e he
        have he0 : e0 = e := by simpa [dictGet] using he
        subst he0
        rw [hstep, (ih _ hnd.2).1 hrest, merge_step_get_self]
    · have hne : form ≠ k := fun hh => hk hh.symm
      have hgd : dictGet form ((k, e0) :: rest) = dictGet form rest := by
        simp [dictGet, hk]
      constructor
      · intro hnone
        rw [hgd] at hnone
        rw [hstep, (ih _ hnd.2).1 hnone, merge_step_get_ne bn c e0 hne]
      · intro e he
        rw [hgd] at he
        rw [hstep, (ih _ hnd.2).2 e he, merge_step_get_ne bn c e0 hne]

theorem file_group_fst {form : String} {fv : String × Vocabulary} {p : String × List ℚ}
    (h : file_group form fv = some p) : p.1 = fv.1 := by
  unfold file_group at h
  cases hdg : dictGet form fv.2 with
  | none => rw [hdg] at h; cases h
  | some e =>
    rw [hdg] at h
    rw [show (some e).map (fun e => (fv.1, occTimestamps e.occurences)) =
        some (fv.1, occTimestamps e.occurences) from rfl] at h
    cases h
    rfl

theorem file_group_keys {form : String} {files : List (String × Vocabulary)} {x : String}
    (hx : x ∈ keysOf (files.filterMap (file_group form))) : x ∈ keysOf files := by
  simp only [keysOf, List.mem_map] at hx
  obtain ⟨p, hp, rfl⟩ := hx
  obtain ⟨fv, hfv, hfg⟩ := List.mem_filterMap.mp hp
  rw [file_group_fst hfg]
  exact List.mem_map.mpr ⟨fv, hfv, rfl⟩

theorem common_from_files_get (form : String) :
    ∀ files : List (String × Vocabulary), (keysOf files).Nodup →
      (∀ fv ∈ files, (keysOf fv.2).Nodup) →
      (∀ fv ∈ files, ∀ p ∈ fv.2, freqIsInt p.2.frequency = true) →
      ((∀ fv ∈ files, dictGet form fv.2 = none) →
        dictGet form (common_from_files files) = none)
      ∧ ((∃ fv ∈ files, (dictGet form fv.2).isSome = true) →
        dictGet form (common_from_files files) =
          some ⟨.int ((files.map (file_contrib form)).sum),
                .dictSet (files.filterMap (file_group form))⟩) := by
  intro files
  induction files using List.reverseRecOn with
  | nil =>
    intro _ _ _
    constructor
    · intro _; rfl
    · rintro ⟨fv, hfv, _⟩
      cases hfv
  | append_singleton files fv ih =>
    intro hnames hkeys hints
    have hnames2 : (keysOf files).Nodup ∧ fv.1 ∉ keysOf files := by
      rw [keysOf, List.map_append] at hnames
      obtain ⟨h1, _, hdisj⟩ := List.nodup_append.mp hnames
      exact ⟨h1, fun hmem => hdisj hmem (by simp)⟩
    have ih2 := ih hnames2.1
      (fun x hx => hkeys x (List.mem_append.mpr (Or.inl hx)))
      (fun x hx => hints x (List.mem_append.mpr (Or.inl hx)))
    have hfvmem : fv ∈ files ++ [fv] :=
      List.mem_append.mpr (Or.inr (List.mem_singleton_self fv))
    have hstep : common_from_files (files ++ [fv]) =
        merge_file_vocabulary (common_from_files files) fv.1 fv.2 := by
      simp [common_from_files, List.foldl_append]
    have hmf := merge_file_get fv.1 form fv.2 (common_from_files files) (hkeys fv hfvmem)
    constructor
    · intro hall
      have hfv0 : dictGet form fv.2 = none := hall fv hfvmem
      rw [hstep, hmf.1 hfv0]
      exact ih2.1 (fun x hx => hall x (List.mem_append.mpr (Or.inl hx)))
    · rintro ⟨fv2, hfv2, hsome⟩
      cases hdg : dictGet form fv.2 with
      | none =>
        have hex : ∃ x ∈ files, (dictGet form x.2).isSome = true := by
          rcases List.mem_append.mp hfv2 with h | h
          · exact ⟨fv2, h, hsome⟩
          · rw [List.mem_singleton] at h
            subst h
            rw [hdg] at hsome
            cases hsome
        rw [hstep, hmf.1 hdg, ih2.2 hex]
        simp [List.map_append, List.sum_append, List.filterMap_append,
          file_contrib, file_group, hdg]
      | some e =>
        have hint : freqIsInt e.frequency = true :=
          hints fv hfvmem (form, e) (dictGet_mem hdg)
        obtain ⟨n, hn⟩ : ∃ n, e.frequency = .int n := by
          cases hfq : e.frequency with
          | int n => exact ⟨n, rfl⟩
          | str s => rw [hfq] at hint; cases hint
        by_cases hex : ∃ x ∈ files, (dictGet form x.2).isSome = true
        · rw [hstep, hmf.2 e hdg, ih2.2 hex]
          have hnotin : fv.1 ∉ keysOf (files.filterMap (file_group form)) := fun hmem =>
            hnames2.2 (file_group_keys hmem)
          simp only [Option.getD_some, merge_entry, freqAdd, hn,
            dictAssign_of_not_mem hnotin]
          simp [List.map_append, List.sum_append, List.filterMap_append,
            file_contrib, file_group, hdg, hn, freqIntOf]
        · have hallnone : ∀ x ∈ files, dictGet form x.2 = none := by
            intro x hx
            cases hdx : dictGet form x.2 with
            | none => rfl
            | some e2 => exact absurd ⟨x, hx, by simp [hdx]⟩ hex
          rw [hstep, hmf.2 e hdg, ih2.1 hallnone]
          have hsum0 : (files.map (file_contrib form)).sum = 0 := by
            apply List.sum_eq_zero
            intro x hx
            obtain ⟨fv2, hfv2m, rfl⟩ := List.mem_map.mp hx
            simp [file_contrib, hallnone fv2 hfv2m]
          have hfm : files.filterMap (file_group form) = [] := by
            rw [List.filterMap_eq_nil_iff]
            intro x hx
            simp [file_group, hallnone x hx]
          simp [Option.getD_none, merge_entry, freqAdd, hn, hsum0, hfm,
            List.map_append, List.sum_append, List.filterMap_append,
            file_contrib, file_group, hdg, freqIntOf, dictAssign]

/-- C2: merging per-file vocabularies into one combined vocabulary sums
each form's per-file frequencies and regroups its occurrences as a
mapping from each file's base name to that file's timestamp set. -/
theorem common_vocabulary_merge_spec (files : List (String × Vocabulary)) (form : String)
    (hnames : (keysOf files).Nodup)
    (hwf : ∀ fv ∈ files, vocabAggWF fv.2 = true) :
    ((∀ fv ∈ files, dictGet form fv.2 = none) →
       dictGet form (common_from_files files) = none)
  ∧ (∀ e, dictGet form (common_from_files files) = some e →
       e.frequency = .int ((files.map (file_contrib form)).sum)
       ∧ e.occurences = .dictSet (files.filterMap (file_group form))) := by
  have hkeys : ∀ fv ∈ files, (keysOf fv.2).Nodup := by
    intro fv hfv
    have := hwf fv hfv
    simp only [vocabAggWF, Bool.and_eq_true, decide_eq_true_eq] at this
    exact this.1
  have hints : ∀ fv ∈ files, ∀ p ∈ fv.2, freqIsInt p.2.frequency = true := by
    intro fv hfv p hp
    have := hwf fv hfv
    simp only [vocabAggWF, Bool.and_eq_true, decide_eq_true_eq, List.all_eq_true] at this
    have h2 := this.2 p hp
    simp only [entryAggWF, Bool.and_eq_true] at h2
    exact h2.1
  have hmain := common_from_files_get form files hnames hkeys hints
  refine ⟨hmain.1, ?_⟩
  intro e he
  by_cases hex : ∃ fv ∈ files, (dictGet form fv.2).isSome = true
  · rw [hmain.2 hex] at he
    obtain rfl : e = ⟨.int ((files.map (file_contrib form)).sum),
        .dictSet (files.filterMap (file_group form))⟩ := by
      exact (Option.some.injEq _ _ ▸ he).symm
    exact ⟨rfl, rfl⟩
  · have hallnone : ∀ x ∈ files, dictGet form x.2 = none := by
      intro x hx
      cases hdx : dictGet form x.2 with
      | none => rfl
      | some e2 => exact absurd ⟨x, hx, by simp [hdx]⟩ hex
    rw [hmain.1 hallnone] at he
    cases he

/-- C2 witness: two files with overlapping forms merge to summed
frequency 3 and per-file timestamp groups. -/
theorem common_vocabulary_merge_spec_witness :
    dictGet "w" (common_from_files exFiles) =
      some ⟨.int 3, .dictSet [("ep1", [1, 6]), ("ep2", [2])]⟩ ∧
    (⟨.int 3, .dictSet [("ep1", [1, 6]), ("ep2", [2])]⟩ : Entry).frequency =
      .int ((exFiles.map (file_contrib "w")).sum) ∧
    (⟨.int 3, .dictSet [("ep1", [1, 6]), ("ep2", [2])]⟩ : Entry).occurences =
      .dictSet (exFiles.filterMap (file_group "w")) :=
  ⟨by decide,
   ((common_vocabulary_merge_spec exFiles "w" (by decide) (by decide)).2
     ⟨.int 3, .dictSet [("ep1", [1, 6]), ("ep2", [2])]⟩ (by decide)).1,
   ((common_vocabulary_merge_spec exFiles "w" (by decide) (by decide)).2
     ⟨.int 3, .dictSet [("ep1", [1, 6]), ("ep2", [2])]⟩ (by decide)).2⟩

/-! ### Vocabulary store round trips: claims C1 and C9 -/

theorem jsonTimestampList_map_float (ts : List ℚ) :
    jsonTimestampList (ts.map .float) = some ts := by
  induction ts with
  | nil => rfl
  | cons t rest ih => simp [jsonTimestampList, jsonTimestamp, ih]

theorem groupFromJson_map (m : List (String × List ℚ)) :
    groupFromJson (m.map (fun p => (p.1, .arr (p.2.map .float)))) = some m := by
  induction m with
  | nil => rfl
  | cons p rest ih =>
    obtain ⟨k, ts⟩ := p
    simp [groupFromJson, jsonTimestampList_map_float, ih]

theorem jsonifyOcc_idem (o : OccVal) : jsonifyOcc (jsonifyOcc o) = jsonifyOcc o := by
  cases o <;> rfl

theorem occToJson_jsonifyOcc (o : OccVal) : occToJson (jsonifyOcc o) = occToJson o := by
  cases o <;> rfl

theorem jsonToOcc_occToJson (o : OccVal) : jsonToOcc (occToJson o) = some (jsonifyOcc o) := by
  cases o <;>
    simp [occToJson, jsonToOcc, jsonifyOcc, jsonTimestampList_map_float, groupFromJson_map]

theorem jsonToEntry_entryToJson (e : Entry) :
    jsonToEntry (entryToJson e) = some ⟨e.frequency, jsonifyOcc e.occurences⟩ := by
  cases hf : e.frequency <;>
    simp [entryToJson, jsonToEntry, freqToJson, jsonToFreq, jsonToOcc_occToJson, hf]

theorem loadJsonEntries_map (w : Vocabulary) :
    loadJsonEntries (w.map (fun kv => (kv.1, entryToJson kv.2))) =
      some (jsonify_vocabulary w) := by
  induction w with
  | nil => rfl
  | cons kv rest ih =>
    obtain ⟨k, e⟩ := kv
    simp [loadJsonEntries, jsonToEntry_entryToJson, ih, jsonify_vocabulary]

theorem jsonify_vocabulary_idem (v : Vocabulary) :
    jsonify_vocabulary (jsonify_vocabulary v) = jsonify_vocabulary v := by
  unfold jsonify_vocabulary
  rw [List.map_map]
  apply List.map_congr_left
  intro kv _
  simp [Function.comp, jsonifyOcc_idem]

/-- The JSON round trip, exactly: loading what was saved gives back the
jsonified vocabulary (sets enumerated as lists, all else unchanged). -/
theorem load_save_json (v : Vocabulary) :
    load_vocabulary_json (save_vocabulary_json v) = some (jsonify_vocabulary v) := by
  show loadJsonEntries ((jsonify_vocabulary v).map (fun kv => (kv.1, entryToJson kv.2))) =
    some (jsonify_vocabulary v)
  rw [loadJsonEntries_map, jsonify_vocabulary_idem]

theorem dictGet_map_value {α β : Type} (g : α → β) (k : String) :
    ∀ l : List (String × α),
      dictGet k (l.map (fun kv => (kv.1, g kv.2))) = (dictGet k l).map g := by
  intro l
  induction l with
  | nil => rfl
  | cons kv rest ih =>
    obtain ⟨k2, a⟩ := kv
    by_cases h : k2 = k <;> simp [dictGet, h, ih]

theorem keysOf_map_value {α β : Type} (g : α → β) (l : List (String × α)) :
    keysOf (l.map (fun kv => (kv.1, g kv.2))) = keysOf l := by
  simp [keysOf, List.map_map, Function.comp]

theorem dictGet_jsonify (k : String) (v : Vocabulary) :
    dictGet k (jsonify_vocabulary v) =
      (dictGet k v).map (fun e => ⟨e.frequency, jsonifyOcc e.occurences⟩) := by
  induction v with
  | nil => rfl
  | cons kv rest ih =>
    obtain ⟨k2, e⟩ := kv
    by_cases h : k2 = k
    · simp [jsonify_vocabulary, dictGet, h]
    · simp only [jsonify_vocabulary, List.map_cons, dictGet, h, if_false]
      simpa [jsonify_vocabulary] using ih

theorem keysOf_jsonify (v : Vocabulary) : keysOf (jsonify_vocabulary v) = keysOf v := by
  simp [jsonify_vocabulary, keysOf, List.map_map, Function.comp]

theorem assoc_eq_of_nodup_keys {α : Type} {m : List (String × α)} (h : (keysOf m).Nodup)
    {p2 p : String × α} (h2 : p2 ∈ m) (hp : p ∈ m) (he : p2.1 = p.1) : p2 = p := by
  obtain ⟨k2, a2⟩ := p2
  obtain ⟨k1, a1⟩ := p
  simp only at he
  subst he
  have g2 := dictGet_of_mem_of_nodup h h2
  have g1 := dictGet_of_mem_of_nodup h hp
  rw [g1] at g2
  cases g2
  rfl

theorem occRoundTrip_jsonify {e : Entry} (h : entryAggWF e = true) :
    OccRoundTrip e.occurences (jsonifyOcc e.occurences) := by
  simp only [entryAggWF, Bool.and_eq_true] at h
  obtain ⟨_, hocc⟩ := h
  cases ho : e.occurences with
  | set ts =>
    show List.Perm ts ts
    exact List.Perm.refl ts
  | dictSet m =>
    rw [ho] at hocc
    simp only [Bool.and_eq_true, decide_eq_true_eq] at hocc
    show m.map Prod.fst = m.map Prod.fst ∧
      ∀ p2 ∈ m, ∀ p ∈ m, p2.1 = p.1 → List.Perm p2.2 p.2
    refine ⟨rfl, ?_⟩
    intro p2 h2 p hp he
    rw [assoc_eq_of_nodup_keys hocc.1 h2 hp he]
  | list ts =>
    rw [ho] at hocc
    cases hocc
  | dictList m =>
    rw [ho] at hocc
    cases hocc

/-! CSV round trip machinery. -/

theorem insertByFreqDesc_perm (x : String × FreqVal × JVal)
    (l : List (String × FreqVal × JVal)) :
    List.Perm (insertByFreqDesc x l) (x :: l) := by
  induction l with
  | nil => exact List.Perm.refl _
  | cons y ys ih =>
    unfold insertByFreqDesc
    by_cases h : freqLt y.2.1 x.2.1 = true
    · rw [if_pos h]
    · rw [if_neg h]
      exact (ih.cons y).trans (List.Perm.swap x y ys)

theorem sortByFreqDesc_perm (rows : List (String × FreqVal × JVal)) :
    List.Perm (sortByFreqDesc rows) rows := by
  suffices h : ∀ (rs acc : List (String × FreqVal × JVal)),
      List.Perm (rs.foldl (fun acc x => insertByFreqDesc x acc) acc) (rs ++ acc) by
    have := h rows []
    simpa [sortByFreqDesc] using this
  intro rs
  induction rs with
  | nil => intro acc; simp
  | cons x rest ih =>
    intro acc
    have h1 := ih (insertByFreqDesc x acc)
    refine h1.trans ?_
    have h2 : List.Perm (insertByFreqDesc x acc) (x :: acc) := insertByFreqDesc_perm x acc
    refine (List.Perm.append_left rest h2).trans ?_
    exact List.perm_middle

theorem freqIsInt_exists {f : FreqVal} (h : freqIsInt f = true) : ∃ n, f = .int n := by
  cases hf : f with
  | int n => exact ⟨n, rfl⟩
  | str s => rw [hf] at h; cases h

theorem insertByFreqDesc_pairwise (x : String × FreqVal × JVal)
    (l : List (String × FreqVal × JVal))
    (hx : freqIsInt x.2.1 = true) (hl : ∀ y ∈ l, freqIsInt y.2.1 = true)
    (h : l.Pairwise (fun a b => freqIntOf b.2.1 ≤ freqIntOf a.2.1)) :
    (insertByFreqDesc x l).Pairwise (fun a b => freqIntOf b.2.1 ≤ freqIntOf a.2.1) := by
  induction l with
  | nil => simp [insertByFreqDesc]
  | cons y ys ih =>
    rw [List.pairwise_cons] at h
    obtain ⟨hhead, htail⟩ := h
    obtain ⟨xn, hxn⟩ := freqIsInt_exists hx
    obtain ⟨yn, hyn⟩ := freqIsInt_exists (hl y (List.mem_cons_self y ys))
    unfold insertByFreqDesc
    by_cases hlt : freqLt y.2.1 x.2.1 = true
    · rw [if_pos hlt]
      have hyx : freqIntOf y.2.1 ≤ freqIntOf x.2.1 := by
        rw [hxn, hyn] at hlt ⊢
        simp only [freqLt, decide_eq_true_eq] at hlt
        simp only [freqIntOf]
        omega
      refine List.Pairwise.cons ?_ (List.Pairwise.cons hhead htail)
      intro z hz
      rcases List.mem_cons.mp hz with rfl | hz2
      · exact hyx
      · exact le_trans (hhead z hz2) hyx
    · rw [if_neg hlt]
      have hxy : freqIntOf x.2.1 ≤ freqIntOf y.2.1 := by
        rw [hxn, hyn] at hlt ⊢
        simp only [freqLt, decide_eq_true_eq] at hlt
        simp only [freqIntOf]
        omega
      refine List.Pairwise.cons ?_ (ih (fun z hz => hl z (List.mem_cons_of_mem y hz)) htail)
      intro z hz
      have hz2 := (insertByFreqDesc_perm x ys).mem_iff.mp hz
      rcases List.mem_cons.mp hz2 with rfl | hz3
      · exact hxy
      · exact hhead z hz3

theorem sortByFreqDesc_pairwise (rows : List (String × FreqVal × JVal))
    (hall : ∀ r ∈ rows, freqIsInt r.2.1 = true) :
    (sortByFreqDesc rows).Pairwise (fun a b => freqIntOf b.2.1 ≤ freqIntOf a.2.1) := by
  suffices h : ∀ (rs acc : List (String × FreqVal × JVal)),
      (∀ r ∈ rs, freqIsInt r.2.1 = true) → (∀ y ∈ acc, freqIsInt y.2.1 = true) →
      acc.Pairwise (fun a b => freqIntOf b.2.1 ≤ freqIntOf a.2.1) →
      (rs.foldl (fun acc x => insertByFreqDesc x acc) acc).Pairwise
        (fun a b => freqIntOf b.2.1 ≤ freqIntOf a.2.1) by
    exact h rows [] hall (by simp) (by simp)
  intro rs
  induction rs with
  | nil => intro acc _ hacc hp; exact hp
  | cons x rest ih =>
    intro acc hrs hacc hp
    refine ih (insertByFreqDesc x acc) (fun r hr => hrs r (List.mem_cons_of_mem x hr))
      ?_ ?_
    · intro y hy
      rcases List.mem_cons.mp ((insertByFreqDesc_perm x acc).mem_iff.mp hy) with rfl | hy2
      · exact hrs _ (List.mem_cons_self _ rest)
      · exact hacc y hy2
    · exact insertByFreqDesc_pairwise x acc (hrs x (List.mem_cons_self x rest)) hacc hp

theorem loadCsvRows_eq :
    ∀ (rows : List CsvRow) (acc : Vocabulary),
      (∀ r ∈ rows, (jsonToOcc r.2.2).isSome = true) →
      (∀ r ∈ rows, r.1 ∉ keysOf acc) →
      (keysOf rows).Nodup →
      loadCsvRows rows acc = some (acc ++ rows.map (fun r =>
        (r.1, ⟨.str r.2.1, (jsonToOcc r.2.2).getD (.list [])⟩))) := by
  intro rows
  induction rows with
  | nil => intro acc _ _ _; simp [loadCsvRows]
  | cons r rest ih =>
    intro acc hparse hdisj hnd
    obtain ⟨k, f, oj⟩ := r
    obtain ⟨o, ho⟩ := Option.isSome_iff_exists.mp
      (hparse _ (List.mem_cons_self _ rest))
    have ho2 : jsonToOcc oj = some o := ho
    have hknotin : k ∉ keysOf acc := hdisj _ (List.mem_cons_self _ rest)
    simp only [keysOf, List.map_cons, List.nodup_cons] at hnd
    simp only [loadCsvRows, ho2]
    rw [dictAssign_of_not_mem hknotin]
    have hdisj2 : ∀ r2 ∈ rest, r2.1 ∉ keysOf (acc ++ [(k, (⟨.str f, o⟩ : Entry))]) := by
      intro r2 hr2
      simp only [keysOf, List.map_append, List.mem_append]
      push_neg
      refine ⟨hdisj r2 (List.mem_cons_of_mem _ hr2), ?_⟩
      simp only [List.map_cons, List.map_nil, List.mem_singleton]
      intro hkk
      exact hnd.1 (hkk ▸ List.mem_map.mpr ⟨r2, hr2, rfl⟩)
    rw [ih (acc ++ [(k, (⟨.str f, o⟩ : Entry))])
      (fun r2 hr2 => hparse r2 (List.mem_cons_of_mem _ hr2)) hdisj2 hnd.2]
    simp [ho2]

theorem load_save_csv (v : Vocabulary) (hk : (keysOf v).Nodup) :
    ∃ v2, load_vocabulary_csv (save_vocabulary_csv v) = some v2 ∧
      List.Perm v2 (v.map csv_loaded_entry) := by
  have heq : ((jsonify_vocabulary v).map
        (fun kv => (kv.1, kv.2.frequency, occToJson kv.2.occurences))).map
        (fun r => (r.1, freqCell r.2.1, r.2.2)) = v.map csv_row_of := by
    unfold jsonify_vocabulary
    rw [List.map_map, List.map_map]
    apply List.map_congr_left
    intro kv _
    simp [Function.comp, csv_row_of, occToJson_jsonifyOcc]
  have hperm : List.Perm (save_vocabulary_csv v) (v.map csv_row_of) := by
    unfold save_vocabulary_csv csv_sorted_rows
    have h1 := (sortByFreqDesc_perm ((jsonify_vocabulary v).map
      (fun kv => (kv.1, kv.2.frequency, occToJson kv.2.occurences)))).map
      (fun r => (r.1, freqCell r.2.1, r.2.2))
    rw [heq] at h1
    exact h1
  have hparse : ∀ r ∈ save_vocabulary_csv v, (jsonToOcc r.2.2).isSome = true := by
    intro r hr
    obtain ⟨kv, hkv, rfl⟩ := List.mem_map.mp (hperm.mem_iff.mp hr)
    simp [csv_row_of, jsonToOcc_occToJson]
  have hkeysrows : List.Perm (keysOf (save_vocabulary_csv v)) (keysOf v) := by
    have h1 := hperm.map Prod.fst
    have h2 : (v.map csv_row_of).map Prod.fst = v.map Prod.fst := by
      rw [List.map_map]
      apply List.map_congr_left
      intro kv _
      rfl
    rw [h2] at h1
    exact h1
  have hnd2 : (keysOf (save_vocabulary_csv v)).Nodup := hkeysrows.nodup_iff.mpr hk
  have hload := loadCsvRows_eq (save_vocabulary_csv v) []
    hparse (by simp [keysOf]) hnd2
  refine ⟨_, hload, ?_⟩
  have hmap := hperm.map (fun r =>
    ((r.1, ⟨.str r.2.1, (jsonToOcc r.2.2).getD (.list [])⟩) : String × Entry))
  have heq2 : (v.map csv_row_of).map (fun r =>
      ((r.1, ⟨.str r.2.1, (jsonToOcc r.2.2).getD (.list [])⟩) : String × Entry)) =
      v.map csv_loaded_entry := by
    rw [List.map_map]
    apply List.map_congr_left
    intro kv _
    simp [Function.comp, csv_row_of, csv_loaded_entry, jsonToOcc_occToJson]
  rw [heq2] at hmap
  simpa using hmap

theorem csv_loaded_keys {v v2 : Vocabulary}
    (hperm : List.Perm v2 (v.map csv_loaded_entry)) :
    List.Perm (keysOf v2) (keysOf v) := by
  have h1 := hperm.map Prod.fst
  have h2 : (v.map csv_loaded_entry).map Prod.fst = v.map Prod.fst := by
    rw [List.map_map]
    apply List.map_congr_left
    intro kv _
    rfl
  rw [h2] at h1
  exact h1

theorem csv_loaded_dictGet {v : Vocabulary} (hk : (keysOf v).Nodup) {v2 : Vocabulary}
    (hperm : List.Perm v2 (v.map csv_loaded_entry)) :
    ∀ k e, dictGet k v = some e →
      dictGet k v2 = some ⟨.str (freqCell e.frequency), jsonifyOcc e.occurences⟩ := by
  intro k e he
  have hnd2 : (keysOf v2).Nodup := (csv_loaded_keys hperm).nodup_iff.mpr hk
  have hm : csv_loaded_entry (k, e) ∈ v.map csv_loaded_entry :=
    List.mem_map.mpr ⟨(k, e), dictGet_mem he, rfl⟩
  have hm2 : (k, (⟨.str (freqCell e.frequency), jsonifyOcc e.occurences⟩ : Entry)) ∈ v2 :=
    hperm.mem_iff.mpr hm
  exact dictGet_of_mem_of_nodup hnd2 hm2

theorem vocabAggWF_parts {v : Vocabulary} (hwf : vocabAggWF v = true) :
    (keysOf v).Nodup ∧ ∀ p ∈ v, entryAggWF p.2 = true := by
  simp only [vocabAggWF, Bool.and_eq_true, decide_eq_true_eq, List.all_eq_true] at hwf
  exact hwf

/-- C1 (amended): for every aggregation-shaped vocabulary, serializing
then deserializing preserves the set of dictionary-form keys and, per
form, the set of occurrence timestamps — as a permutation, so no
duplicate timestamp is introduced or lost.  The JSON encoding also
preserves every frequency value exactly; the CSV encoding preserves the
frequency only as its decimal string (the loss recorded by claim C9),
not as the number the claim as stated requires. -/
theorem vocabulary_roundtrip_spec (v : Vocabulary) (hwf : vocabAggWF v = true) :
    RoundTripPreserves v := by
  obtain ⟨hk, hentry⟩ := vocabAggWF_parts hwf
  constructor
  · refine ⟨jsonify_vocabulary v, load_save_json v, keysOf_jsonify v, ?_, ?_⟩
    · intro k
      rw [dictGet_jsonify]
      cases dictGet k v <;> rfl
    · intro k e e1 he he1
      rw [dictGet_jsonify, he] at he1
      have he1e : e1 = ⟨e.frequency, jsonifyOcc e.occurences⟩ := by
        simpa using he1.symm
      subst he1e
      exact occRoundTrip_jsonify (hentry (k, e) (dictGet_mem he))
  · obtain ⟨v2, hload, hperm⟩ := load_save_csv v hk
    refine ⟨v2, hload, csv_loaded_keys hperm, ?_, ?_⟩
    · intro k n hf
      obtain ⟨e, he, hfe⟩ : ∃ e, dictGet k v = some e ∧ e.frequency = .int n := by
        cases hdg : dictGet k v with
        | none => rw [hdg] at hf; cases hf
        | some e =>
          rw [hdg] at hf
          refine ⟨e, rfl, ?_⟩
          simpa using hf
      rw [csv_loaded_dictGet hk hperm k e he, hfe]
      rfl
    · intro k e e2 he he2
      rw [csv_loaded_dictGet hk hperm k e he] at he2
      have he2e : e2 = ⟨.str (freqCell e.frequency), jsonifyOcc e.occurences⟩ := by
        simpa using he2.symm
      subst he2e
      exact occRoundTrip_jsonify (hentry (k, e) (dictGet_mem he))

/-- C1 counterexample: the round trip claim fails, as stated, for the
CSV encoding: a frequency of 1 is not preserved, it reloads as the
string "1". -/
theorem vocabulary_roundtrip_counterexample :
    (dictGet "a" [("a", (⟨.int 1, .set [5]⟩ : Entry))]).map Entry.frequency =
      some (.int 1)
  ∧ ((load_vocabulary_csv (save_vocabulary_csv [("a", ⟨.int 1, .set [5]⟩)])).bind
      (dictGet "a")).map Entry.frequency = some (.str "1")
  ∧ FreqVal.str "1" ≠ FreqVal.int 1 :=
  ⟨by decide, by decide, by decide⟩

/-- C1 witness: the amended round-trip property at a concrete two-entry
vocabulary. -/
theorem vocabulary_roundtrip_spec_witness :
    vocabAggWF exVocabA = true ∧ RoundTripPreserves exVocabA :=
  ⟨by decide, vocabulary_roundtrip_spec exVocabA (by decide)⟩

/-- C9: the tabular writer sorts rows by frequency descending using the
numeric frequencies, yet the loader leaves every entry's frequency as
text: each integer frequency `n` reloads as the decimal string of `n`. -/
theorem load_vocabulary_csv_string_frequencies (v : Vocabulary)
    (hwf : vocabAggWF v = true) : CsvKeepsFrequencyText v := by
  obtain ⟨hk, hentry⟩ := vocabAggWF_parts hwf
  constructor
  · unfold csv_sorted_rows
    apply sortByFreqDesc_pairwise
    intro r hr
    obtain ⟨kv, hkv, rfl⟩ := List.mem_map.mp hr
    obtain ⟨kv0, hkv0, rfl⟩ := List.mem_map.mp hkv
    have hwf0 := hentry kv0 hkv0
    simp only [entryAggWF, Bool.and_eq_true] at hwf0
    exact hwf0.1
  · obtain ⟨v2, hload, hperm⟩ := load_save_csv v hk
    refine ⟨v2, hload, ?_, ?_⟩
    · intro p hp
      obtain ⟨kv, hkv, rfl⟩ := List.mem_map.mp (hperm.mem_iff.mp hp)
      exact ⟨freqCell kv.2.frequency, rfl⟩
    · intro k n hf
      obtain ⟨e, he, hfe⟩ : ∃ e, dictGet k v = some e ∧ e.frequency = .int n := by
        cases hdg : dictGet k v with
        | none => rw [hdg] at hf; cases hf
        | some e =>
          rw [hdg] at hf
          refine ⟨e, rfl, ?_⟩
          simpa using hf
      rw [csv_loaded_dictGet hk hperm k e he, hfe]
      rfl

/-- C9 witness: the property at a concrete two-entry vocabulary. -/
theorem load_vocabulary_csv_string_frequencies_witness :
    vocabAggWF exVocabA = true ∧ CsvKeepsFrequencyText exVocabA :=
  ⟨by decide, load_vocabulary_csv_string_frequencies exVocabA (by decide)⟩

end Vttkana
